import Mathlib

/-!
Shallow embedding of the pluggable transport layer of guard-e/hydra:
the transport manager (fallback chain, error classification, sticky
current index), the domain-fronting transport (status handling, DNS
fallback dial), the mesh transport (peer iteration), and the mDNS
discovery cache.  Go errors are modelled as their message strings
(`Option String`, `none` = ok), since the manager classifies errors by
substring match on the message.  Network effects are modelled by
oracles: per-transport/per-peer outcome data passed as input.
-/

namespace Hydra

/-! ### String containment, mirroring Go strings.Contains -/

/-- Whether `pre` is a leading segment of `s` (on character lists). -/
def charsLead : List Char → List Char → Bool
  | [], _ => true
  | _ :: _, [] => false
  | a :: as, b :: bs => a == b && charsLead as bs

/-- Whether `sub` occurs contiguously inside `s` (on character lists). -/
def charsHaveSub (sub : List Char) : List Char → Bool
  | [] => sub.isEmpty
  | b :: bs => charsLead sub (b :: bs) || charsHaveSub sub bs

/-- Embeds Go `strings.Contains(s, sub)`. -/
def strContains (s sub : String) : Bool :=
  charsHaveSub sub.toList s.toList

/-! ### Manager error classification (`isBlockingError`, part_000) -/

/-- Embeds `manager.isBlockingError`: `nil` errors are not blocking; otherwise
the message is scanned for the four CDN-blocking markers. -/
def isBlockingError : Option String → Bool
  | none => false
  | some errStr =>
    strContains errStr "502" || strContains errStr "Bad Gateway" ||
      strContains errStr "blocked" || strContains errStr "certificate"

/-! ### Fronting transport response handling (fronting.go, Send tail) -/

/-- Embeds the status-code branch of `fronting.Transport.Send`: the error
message produced for an HTTP response with the given status and body,
`none` for status 200. -/
def frontingStatusError (frontDomain : String) (status : Nat) (body : String) :
    Option String :=
  if status == 200 then
    none
  else if status == 403 then
    some ("CDN blocked request to " ++ frontDomain ++ " (403 Forbidden)")
  else if status == 404 then
    some ("endpoint not found on " ++ frontDomain ++ " (404 Not Found)")
  else if status == 502 || status == 503 || status == 504 then
    some ("CDN gateway error " ++ toString status ++ " for " ++ frontDomain)
  else
    some ("server " ++ frontDomain ++ " returned status " ++ toString status
      ++ ": " ++ body)

/-! ### Contexts

A Go `context.Context` is modelled by the iteration index before which it
becomes cancelled (`none` = never during this call) together with the
message of `ctx.Err()`.  Both the manager loop and the mesh peer loop
poll `ctx.Done()` once at the top of each iteration; `done i` says the
poll at iteration `i` observes cancellation. -/

structure Ctx where
  cancelledAt : Option Nat
  errMsg : String
  deriving Repr, DecidableEq

/-- Whether the `select` on `ctx.Done()` at iteration `i` fires. -/
def Ctx.done (c : Ctx) (i : Nat) : Bool :=
  match c.cancelledAt with
  | none => false
  | some k => decide (k ≤ i)

/-- A context that is never cancelled during the call. -/
def Ctx.live : Ctx := ⟨none, "context canceled"⟩

/-! ### The transport manager (part_000)

A transport, as the manager observes it during one `Send`, is its name,
its `IsAvailable()` answer and the result of its `Send` (`none` = ok). -/

structure TransportModel where
  name : String
  available : Bool
  sendErr : Option String
  deriving Repr, DecidableEq

/-- The constant error returned by `TransportManager.Send` when the loop
falls through every transport. -/
def allTransportsFailedMsg : String := "все транспорты недоступны"

/-- Outcome of `TransportManager.Send`. -/
inductive SendResult where
  /-- `nil` return; `idx` is the value written to `currentIndex`. -/
  | ok (idx : Nat)
  /-- `ctx.Err()` propagated from the `select` at the top of an iteration. -/
  | cancelled (msg : String)
  /-- The post-loop error return. -/
  | failed (msg : String)
  deriving Repr, DecidableEq

/-- Embeds the `for i, t := range m.transports` loop of
`TransportManager.Send`.  `i` is the index of the head of `ts` in the full
slice.  Besides the result it returns the trace of indices whose `Send`
was actually invoked, in invocation order. -/
def sendLoop : List TransportModel → Nat → Ctx → SendResult × List Nat
  | [], _, _ => (.failed allTransportsFailedMsg, [])
  | t :: rest, i, ctx =>
    if ctx.done i then
      (.cancelled ctx.errMsg, [])
    else if !t.available then
      sendLoop rest (i + 1) ctx
    else
      match t.sendErr with
      | none => (.ok i, [i])
      | some e =>
        let r := sendLoop rest (i + 1) ctx
        if t.name == "fronting" && isBlockingError (some e) then
          (r.1, i :: r.2)
        else
          (r.1, i :: r.2)

/-- Manager state: the transport slice and the sticky `currentIndex`. -/
structure TransportManager where
  transports : List TransportModel
  currentIndex : Nat
  deriving Repr, DecidableEq

/-- Embeds `TransportManager.Send` (under the manager mutex): runs the loop
from the head of the slice; a successful iteration stores its index in
`currentIndex`.  Also returns the invocation trace. -/
def TransportManager.Send (m : TransportManager) (ctx : Ctx) :
    TransportManager × SendResult × List Nat :=
  match sendLoop m.transports 0 ctx with
  | (.ok i, tr) => ({ m with currentIndex := i }, .ok i, tr)
  | (r, tr) => (m, r, tr)

/-- Embeds `TransportManager.GetCurrentTransport`. -/
def TransportManager.GetCurrentTransport (m : TransportManager) : Option TransportModel :=
  if m.transports.length == 0 then none
  else m.transports.get? m.currentIndex

/-- Iteration `j` of the loop would succeed: the transport is available
and its send returns ok. -/
def okAt (ts : List TransportModel) (j : Nat) : Prop :=
  ∃ t, ts.get? j = some t ∧ t.available = true ∧ t.sendErr = none

instance (ts : List TransportModel) (j : Nat) : Decidable (okAt ts j) := by
  unfold okAt
  cases ts.get? j with
  | none => exact .isFalse (by simp)
  | some t => exact decidable_of_iff (t.available = true ∧ t.sendErr = none) (by simp)

/-- The `IsAvailable()` answer of the transport at position `k` (`false`
past the end of the slice). -/
def availAt (ts : List TransportModel) (k : Nat) : Bool :=
  match ts.get? k with
  | some t => t.available
  | none => false

/-- The positions among the first `n` whose transport is available: exactly
the sends the manager loop invokes while it walks those positions. -/
def attempts (ts : List TransportModel) (n : Nat) : List Nat :=
  (List.range n).filter (fun k => availAt ts k)

/-- The chain used to witness C1: a failing fronting transport followed by
a succeeding mesh transport. -/
def c1Chain : List TransportModel :=
  [⟨"domain-fronting", true, some "CDN gateway error 502 for ajax.googleapis.com"⟩,
   ⟨"mesh", true, none⟩]

/-- The chain and context used to witness C5: cancellation fires before the
second transport's iteration. -/
def c5Chain : List TransportModel :=
  [⟨"domain-fronting", true, some "network connection failed to cdn.cloudflare.com"⟩,
   ⟨"mesh", true, none⟩]

/-- The error message produced by the fronting transport for a 403. -/
def fronting403Msg (frontDomain : String) : String :=
  "CDN blocked request to " ++ frontDomain ++ " (403 Forbidden)"

/-! ### Fronting custom dial (`DialTLSContext`, fronting.go)

The per-resolver network outcome (TCP connect, TLS handshake) is an
oracle keyed by the resolver address; `""` is the system resolver. -/

structure DNSOutcome where
  tcpOk : Bool
  tlsOk : Bool
  deriving Repr, DecidableEq

/-- The fixed resolver sequence of `DialTLSContext`: system default, then
Google, Cloudflare, Quad9. -/
def dnsServers : List String := ["", "8.8.8.8:53", "1.1.1.1:53", "9.9.9.9:53"]

/-- Outcome of `DialTLSContext`: an established TLS connection tagged with
the resolver that produced it, or the exhaustion error. -/
inductive DialResult where
  | conn (resolver : String)
  | err (msg : String)
  deriving Repr, DecidableEq

/-- Embeds the `for _, dnsServer := range dnsServers` loop of
`DialTLSContext`: TCP dial, then TLS handshake; failure of either moves to
the next resolver.  Also returns the resolvers actually tried. -/
def dialTLSLoop (outcome : String → DNSOutcome) (addr : String) :
    List String → DialResult × List String
  | [] => (.err ("all DNS servers failed for " ++ addr), [])
  | dnsServer :: rest =>
    let o := outcome dnsServer
    if !o.tcpOk then
      let r := dialTLSLoop outcome addr rest
      (r.1, dnsServer :: r.2)
    else if !o.tlsOk then
      let r := dialTLSLoop outcome addr rest
      (r.1, dnsServer :: r.2)
    else
      (.conn dnsServer, [dnsServer])

/-- Embeds `DialTLSContext` itself. -/
def DialTLSContext (outcome : String → DNSOutcome) (addr : String) :
    DialResult × List String :=
  dialTLSLoop outcome addr dnsServers

/-- TCP connect and TLS handshake both succeed through resolver `d`. -/
def resolverOk (outcome : String → DNSOutcome) (d : String) : Bool :=
  (outcome d).tcpOk && (outcome d).tlsOk

/-! ### Mesh transport (transport.go, MeshTransport.Send)

A peer, as one `Send` observes it: its address, the outcome of the TCP
dial (`none` = connected) and of the full write (`none` = written). -/

structure PeerAttempt where
  addr : String
  dialErr : Option String
  writeErr : Option String
  deriving Repr, DecidableEq

/-- The failure message iteration over this peer records into `lastError`
(`none` only if the peer succeeds). -/
def PeerAttempt.failMsg (p : PeerAttempt) : Option String :=
  match p.dialErr with
  | some e => some e
  | none => p.writeErr

/-- Go `fmt %v` of the `error`-typed `lastError`. -/
def errShow : Option String → String
  | some e => e
  | none => "<nil>"

/-- Outcome of `MeshTransport.Send`. -/
inductive MeshResult where
  | ok
  | cancelled (msg : String)
  | err (msg : String)
  deriving Repr, DecidableEq

/-- Embeds the `for _, peer := range m.peers` loop of `MeshTransport.Send`,
threading `lastError`; also returns the indices of peers actually dialed. -/
def meshLoop : List PeerAttempt → Nat → Option String → Ctx → MeshResult × List Nat
  | [], _, lastErr, _ => (.err ("failed to send to any peer: " ++ errShow lastErr), [])
  | p :: rest, i, _lastErr, ctx =>
    if ctx.done i then
      (.cancelled ctx.errMsg, [])
    else
      match p.dialErr with
      | some e =>
        let r := meshLoop rest (i + 1) (some e) ctx
        (r.1, i :: r.2)
      | none =>
        match p.writeErr with
        | none => (.ok, [i])
        | some e =>
          let r := meshLoop rest (i + 1) (some e) ctx
          (r.1, i :: r.2)

/-- Embeds `MeshTransport.Send`: the empty-peers guard, then the loop. -/
def meshSend (peers : List PeerAttempt) (ctx : Ctx) : MeshResult × List Nat :=
  if peers.length == 0 then (.err "no peers available in mesh network", [])
  else meshLoop peers 0 none ctx

/-- Peer `j` succeeds: its dial and its full write both return no error. -/
def peerOkAt (peers : List PeerAttempt) (j : Nat) : Prop :=
  ∃ p, peers.get? j = some p ∧ p.dialErr = none ∧ p.writeErr = none

instance (peers : List PeerAttempt) (j : Nat) : Decidable (peerOkAt peers j) := by
  unfold peerOkAt
  cases peers.get? j with
  | none => exact .isFalse (by simp)
  | some p =>
    exact decidable_of_iff (p.dialErr = none ∧ p.writeErr = none) (by simp)

/-- `lastError` at the end of the failing loop: the fold of each failing
peer's recorded message over the initial value. -/
def lastFail : List PeerAttempt → Option String → Option String
  | [], acc => acc
  | p :: rest, acc =>
    lastFail rest (match p.failMsg with | some e => some e | none => acc)

/-- The peer list used to witness C6: the first peer's dial is refused, the
second accepts and the write succeeds. -/
def c6Peers : List PeerAttempt :=
  [⟨"192.168.1.100:8080", some "dial tcp 192.168.1.100:8080: connection refused", none⟩,
   ⟨"192.168.1.101:8080", none, none⟩]

/-! ### mDNS discovery cache (part_003, ServiceDiscovery)

The cache `peers : map[string]string` is modelled as an association list
with Go-map assignment semantics; the entries channel of the query loop is
modelled as the list of `mdns.ServiceEntry` values received in order. -/

structure ServiceEntry where
  name : String
  addrV4 : Option String
  port : Nat
  deriving Repr, DecidableEq

/-- Go map assignment `m[k] = v`: overwrite the binding if the key exists,
otherwise add it. -/
def mapInsert : List (String × String) → String → String → List (String × String)
  | [], k, v => [(k, v)]
  | (k', v') :: rest, k, v =>
    if k' = k then (k', v) :: rest else (k', v') :: mapInsert rest k v

/-- One `entry := <-entries` step of `discoverServices`: entries with an
IPv4 address are stored under their instance name as `host:port`; entries
without one are ignored. -/
def discoveryStep (peers : List (String × String)) (e : ServiceEntry) :
    List (String × String) :=
  match e.addrV4 with
  | none => peers
  | some ip => mapInsert peers e.name (ip ++ ":" ++ toString e.port)

/-- The cache after the query loop has consumed `events`, starting from the
empty map created by `discovery.New`. -/
def runDiscovery (events : List ServiceEntry) : List (String × String) :=
  events.foldl discoveryStep []

/-- Embeds `ServiceDiscovery.GetPeers`: the list of cached addresses. -/
def GetPeers (peers : List (String × String)) : List String :=
  peers.map Prod.snd

/-- Assoc-list lookup, i.e. Go `m[k]` for the model. -/
def lookupName (n : String) : List (String × String) → Option String
  | [] => none
  | (k, v) :: rest => if k = n then some v else lookupName n rest

/-! ### Concrete transports and the manager's construction (C10)

The statics of `fronting.Transport`, `mesh.MeshTransport` and
`manager.New`: names, availability and the construction-time chain. -/

structure FrontingTransport where
  FrontDomain : String
  HiddenDomain : String
  EndpointUrl : String
  deriving Repr, DecidableEq

/-- Embeds `fronting.New`. -/
def FrontingTransport.New (frontDomain hiddenDomain : String) : FrontingTransport :=
  { FrontDomain := frontDomain
    HiddenDomain := hiddenDomain
    EndpointUrl := "https://" ++ frontDomain ++ "/message" }

/-- Embeds `fronting.Transport.Name`. -/
def FrontingTransport.Name (_ : FrontingTransport) : String := "domain-fronting"

/-- Embeds `fronting.Transport.IsAvailable`. -/
def FrontingTransport.IsAvailable (_ : FrontingTransport) : Bool := true

/-- A transport instance as `manager.New` assembles them. -/
inductive ChainTransport where
  | fronting (t : FrontingTransport)
  | mesh (peers : List String)
  deriving Repr, DecidableEq

/-- Dispatches `Name()` over the two families: `mesh.MeshTransport.Name`
returns "mesh". -/
def ChainTransport.Name : ChainTransport → String
  | .fronting t => t.Name
  | .mesh _ => "mesh"

/-- Dispatches `IsAvailable()`: both families return true unconditionally. -/
def ChainTransport.IsAvailable : ChainTransport → Bool
  | .fronting t => t.IsAvailable
  | .mesh _ => true

/-- Embeds the transport slice built by `manager.New`: four fronting
transports on distinct CDN front-domains, then one mesh transport. -/
def managerNew : List ChainTransport :=
  [.fronting (FrontingTransport.New "ajax.googleapis.com" "secret-chat.appspot.com"),
   .fronting (FrontingTransport.New "cdn.cloudflare.com" "secret-chat.appspot.com"),
   .fronting (FrontingTransport.New "d3a2p9q8.stackpathcdn.com" "secret-chat.appspot.com"),
   .fronting (FrontingTransport.New "assets.buymeacoffee.com" "secret-chat.appspot.com"),
   .mesh ["192.168.1.100:8080", "192.168.1.101:8080", "192.168.1.102:8080"]]

/-- Embeds `TransportManager.GetStatus`: for each transport, write
"available" under its name, then overwrite with "unavailable" if the probe
fails. -/
def GetStatus (ts : List ChainTransport) : List (String × String) :=
  ts.foldl (fun status t =>
    let status' := mapInsert status t.Name "available"
    if t.IsAvailable then status' else mapInsert status' t.Name "unavailable") []

@[simp] lemma availAt_cons_zero (t : TransportModel) (rest : List TransportModel) :
    availAt (t :: rest) 0 = t.available := rfl

@[simp] lemma availAt_cons_succ (t : TransportModel) (rest : List TransportModel)
    (k : Nat) : availAt (t :: rest) (k + 1) = availAt rest k := rfl

@[simp] lemma okAt_nil (j : Nat) : ¬ okAt [] j := by simp [okAt]

lemma okAt_cons_zero (t : TransportModel) (rest : List TransportModel) :
    okAt (t :: rest) 0 ↔ t.available = true ∧ t.sendErr = none := by
  simp [okAt]

lemma okAt_cons_succ (t : TransportModel) (rest : List TransportModel) (j : Nat) :
    okAt (t :: rest) (j + 1) ↔ okAt rest j := Iff.rfl

lemma attempts_cons (t : TransportModel) (rest : List TransportModel) (n : Nat) :
    attempts (t :: rest) (n + 1) =
      (if t.available then [0] else []) ++ (attempts rest n).map (· + 1) := by
  unfold attempts
  rw [List.range_succ_eq_map, List.filter_cons, List.filter_map]
  rcases Bool.eq_false_or_eq_true t.available with h | h <;>
    simp [h, Function.comp_def, Nat.succ_eq_add_one]

lemma map_add_shift (i : Nat) (l : List Nat) :
    (l.map (· + 1)).map (fun k => i + k) = l.map (fun k => i + 1 + k) := by
  rw [List.map_map]
  exact List.map_congr_left fun a _ => by simp [Function.comp]; omega

/-- Success case of the manager loop: if position `j` is the first one that
is available and whose send succeeds, and the context never cancels, the
loop returns ok at absolute index `i + j` having invoked exactly the
available positions up to `j`. -/
lemma sendLoop_ok {ctx : Ctx} (hc : ctx.cancelledAt = none) :
    ∀ (ts : List TransportModel) (i j : Nat), okAt ts j →
      (∀ k, k < j → ¬ okAt ts k) →
      sendLoop ts i ctx = (.ok (i + j), (attempts ts (j + 1)).map (fun k => i + k)) := by
  intro ts
  induction ts with
  | nil => intro i j hok _; exact absurd hok (okAt_nil j)
  | cons t rest ih =>
    intro i j hok hfirst
    have hdone : ctx.done i = false := by simp [Ctx.done, hc]
    cases ha : t.available with
    | true =>
      cases hse : t.sendErr with
      | none =>
        have hj : j = 0 := by
          by_contra hne
          exact hfirst 0 (Nat.pos_of_ne_zero hne) ((okAt_cons_zero t rest).mpr ⟨ha, hse⟩)
        subst hj
        simp only [sendLoop, hdone, Bool.false_eq_true, if_false, ha, Bool.not_true, hse]
        rw [attempts_cons]
        simp [ha, attempts]
      | some e =>
        obtain ⟨j', rfl⟩ : ∃ j', j = j' + 1 := by
          cases j with
          | zero =>
            obtain ⟨hav, hnone⟩ := (okAt_cons_zero t rest).mp hok
            exact absurd hnone (by simp [hse])
          | succ n => exact ⟨n, rfl⟩
        have hok' : okAt rest j' := (okAt_cons_succ t rest j').mp hok
        have hfirst' : ∀ k, k < j' → ¬ okAt rest k := fun k hk hkok =>
          hfirst (k + 1) (by omega) ((okAt_cons_succ t rest k).mpr hkok)
        have hrec := ih (i + 1) j' hok' hfirst'
        simp only [sendLoop, hdone, Bool.false_eq_true, if_false, ha, Bool.not_true, hse,
          hrec, ite_self]
        rw [attempts_cons]
        simp only [ha, if_true, List.map_append, List.map_cons, List.map_nil,
          List.singleton_append, map_add_shift]
        rw [show i + 1 + j' = i + (j' + 1) by omega]
        simp
    | false =>
      obtain ⟨j', rfl⟩ : ∃ j', j = j' + 1 := by
        cases j with
        | zero =>
          obtain ⟨hav, _⟩ := (okAt_cons_zero t rest).mp hok
          exact absurd hav (by simp [ha])
        | succ n => exact ⟨n, rfl⟩
      have hok' : okAt rest j' := (okAt_cons_succ t rest j').mp hok
      have hfirst' : ∀ k, k < j' → ¬ okAt rest k := fun k hk hkok =>
        hfirst (k + 1) (by omega) ((okAt_cons_succ t rest k).mpr hkok)
      have hrec := ih (i + 1) j' hok' hfirst'
      simp only [sendLoop, hdone, Bool.false_eq_true, if_false, ha, Bool.not_false, if_true,
        hrec]
      rw [attempts_cons]
      rw [show i + 1 + j' = i + (j' + 1) by omega]
      simp only [ha, Bool.false_eq_true, if_false, List.nil_append, Prod.mk.injEq, true_and]
      exact (map_add_shift i _).symm

/-- Fall-through case of the manager loop: if no position succeeds and the
context never cancels, the loop returns the constant post-loop error,
having invoked every available position. -/
lemma sendLoop_fail {ctx : Ctx} (hc : ctx.cancelledAt = none) :
    ∀ (ts : List TransportModel) (i : Nat), (∀ k, k < ts.length → ¬ okAt ts k) →
      sendLoop ts i ctx =
        (.failed allTransportsFailedMsg, (attempts ts ts.length).map (fun k => i + k)) := by
  intro ts
  induction ts with
  | nil => intro i _; simp [sendLoop, attempts]
  | cons t rest ih =>
    intro i hfail
    have hdone : ctx.done i = false := by simp [Ctx.done, hc]
    have hfail' : ∀ k, k < rest.length → ¬ okAt rest k := fun k hk hkok =>
      hfail (k + 1) (by simp [List.length_cons]; omega) ((okAt_cons_succ t rest k).mpr hkok)
    have hrec := ih (i + 1) hfail'
    cases ha : t.available with
    | true =>
      cases hse : t.sendErr with
      | none =>
        exact absurd ((okAt_cons_zero t rest).mpr ⟨ha, hse⟩)
          (hfail 0 (by simp [List.length_cons]))
      | some e =>
        simp only [sendLoop, hdone, Bool.false_eq_true, if_false, ha, Bool.not_true, hse,
          hrec, ite_self, List.length_cons]
        rw [attempts_cons]
        simp only [ha, if_true, List.singleton_append, List.map_cons, map_add_shift]
        simp
    | false =>
      simp only [sendLoop, hdone, Bool.false_eq_true, if_false, ha, Bool.not_false, if_true,
        hrec, List.length_cons]
      rw [attempts_cons]
      simp only [ha, Bool.false_eq_true, if_false, List.nil_append, Prod.mk.injEq, true_and]
      exact (map_add_shift i _).symm

/-- Cancellation case of the manager loop: if the context cancels before
absolute iteration `c` and no earlier position succeeds, the loop returns
`ctx.Err()` from the `select`, having invoked only available positions
strictly before `c`. -/
lemma sendLoop_cancel {ctx : Ctx} {c : Nat} (hc : ctx.cancelledAt = some c) :
    ∀ (ts : List TransportModel) (i : Nat), i ≤ c → c - i < ts.length →
      (∀ k, k < c - i → ¬ okAt ts k) →
      sendLoop ts i ctx =
        (.cancelled ctx.errMsg, (attempts ts (c - i)).map (fun k => i + k)) := by
  intro ts
  induction ts with
  | nil => intro i _ hlen _; simp at hlen
  | cons t rest ih =>
    intro i hle hlen hfail
    by_cases hi : c ≤ i
    · have hci : c - i = 0 := by omega
      have hdone : ctx.done i = true := by simp [Ctx.done, hc, hi]
      simp [sendLoop, hdone, hci, attempts]
    · push_neg at hi
      have hdone : ctx.done i = false := by simp [Ctx.done, hc]; omega
      have hm : c - i = (c - (i + 1)) + 1 := by omega
      have h0 : ¬ okAt (t :: rest) 0 := hfail 0 (by omega)
      have hlen' : c - (i + 1) < rest.length := by
        simp [List.length_cons] at hlen; omega
      have hfail' : ∀ k, k < c - (i + 1) → ¬ okAt rest k := fun k hk hkok =>
        hfail (k + 1) (by omega) ((okAt_cons_succ t rest k).mpr hkok)
      have hrec := ih (i + 1) (by omega) hlen' hfail'
      cases ha : t.available with
      | true =>
        cases hse : t.sendErr with
        | none => exact absurd ((okAt_cons_zero t rest).mpr ⟨ha, hse⟩) h0
        | some e =>
          simp only [sendLoop, hdone, Bool.false_eq_true, if_false, ha, Bool.not_true, hse,
            hrec, ite_self]
          rw [hm, attempts_cons]
          simp only [ha, if_true, List.singleton_append, List.map_cons, map_add_shift]
          simp
      | false =>
        simp only [sendLoop, hdone, Bool.false_eq_true, if_false, ha, Bool.not_false,
          if_true, hrec]
        rw [hm, attempts_cons]
        simp only [ha, Bool.false_eq_true, if_false, List.nil_append, Prod.mk.injEq, true_and]
        exact (map_add_shift i _).symm

/-- The `Send` of `TransportManager ⟨ts, idx⟩` fully evaluated in the
success case. -/
lemma manager_send_eq_of_ok {ts : List TransportModel} {ctx : Ctx} {j : Nat}
    (hc : ctx.cancelledAt = none) (hok : okAt ts j)
    (hfirst : ∀ k, k < j → ¬ okAt ts k) (idx : Nat) :
    TransportManager.Send ⟨ts, idx⟩ ctx = (⟨ts, j⟩, .ok j, attempts ts (j + 1)) := by
  have h := sendLoop_ok hc ts 0 j hok hfirst
  simp only [TransportManager.Send, h]
  simp

/-- **C1**: `TransportManager.Send` walks the transports in construction
(priority) order; the first available transport whose send returns ok ends
the loop, `currentIndex` is set to its position, no later transport's send
is invoked, and the result is independent of the incoming `currentIndex`,
so a subsequent `Send` starts again from the first transport. -/
theorem manager_send_priority_order (ts : List TransportModel) (idx : Nat) (ctx : Ctx)
    (j : Nat) (hc : ctx.cancelledAt = none) (hok : okAt ts j)
    (hfirst : ∀ k, k < j → ¬ okAt ts k) :
    (TransportManager.Send ⟨ts, idx⟩ ctx).2.1 = .ok j ∧
    (TransportManager.Send ⟨ts, idx⟩ ctx).1 = ⟨ts, j⟩ ∧
    (TransportManager.Send ⟨ts, idx⟩ ctx).2.2 = attempts ts (j + 1) ∧
    List.Sorted (· < ·) (attempts ts (j + 1)) ∧
    (∀ k ∈ attempts ts (j + 1), k ≤ j) ∧
    (∀ idx' : Nat, (TransportManager.Send ⟨ts, idx'⟩ ctx).2 =
      (TransportManager.Send ⟨ts, idx⟩ ctx).2) := by
  have hs := fun idx0 => manager_send_eq_of_ok hc hok hfirst idx0
  refine ⟨by rw [hs idx], by rw [hs idx], by rw [hs idx], ?_, ?_,
    fun idx' => by rw [hs idx', hs idx]⟩
  · exact (List.pairwise_lt_range (j + 1)).filter _
  · intro k hk
    unfold attempts at hk
    simp only [List.mem_filter, List.mem_range] at hk
    omega

theorem manager_send_priority_order_witness :
    (okAt c1Chain 1 ∧ ∀ k, k < 1 → ¬ okAt c1Chain k) ∧
    ((TransportManager.Send ⟨c1Chain, 0⟩ Ctx.live).2.1 = .ok 1 ∧
     (TransportManager.Send ⟨c1Chain, 0⟩ Ctx.live).1 = ⟨c1Chain, 1⟩ ∧
     (TransportManager.Send ⟨c1Chain, 0⟩ Ctx.live).2.2 = attempts c1Chain (1 + 1) ∧
     List.Sorted (· < ·) (attempts c1Chain (1 + 1)) ∧
     (∀ k ∈ attempts c1Chain (1 + 1), k ≤ 1) ∧
     (∀ idx' : Nat, (TransportManager.Send ⟨c1Chain, idx'⟩ Ctx.live).2 =
       (TransportManager.Send ⟨c1Chain, 0⟩ Ctx.live).2)) :=
  ⟨⟨by decide, by decide⟩,
   manager_send_priority_order c1Chain 0 Ctx.live 1 rfl (by decide) (by decide)⟩

/-- **C2 counterexample**: with a single available transport failing with
message "timeout", `Send` returns the constant all-transports-failed error,
whose message does not contain the underlying reason "timeout"; so the
returned error does not carry the last classified failure reason. -/
theorem manager_send_all_failed_counterexample :
    (TransportManager.Send ⟨[⟨"mesh", true, some "timeout"⟩], 0⟩ Ctx.live).2.1 =
      .failed allTransportsFailedMsg ∧
    strContains allTransportsFailedMsg "timeout" = false := by
  constructor
  · rfl
  · decide

/-- **C2 amended**: if the context never cancels and no transport's send
returns ok, `Send` returns the fixed error message
"все транспорты недоступны", which carries no information about the last
underlying transport error; `currentIndex` is left unchanged. -/
theorem manager_send_all_failed (ts : List TransportModel) (idx : Nat) (ctx : Ctx)
    (hc : ctx.cancelledAt = none) (hfail : ∀ k, k < ts.length → ¬ okAt ts k) :
    (TransportManager.Send ⟨ts, idx⟩ ctx).2.1 = .failed allTransportsFailedMsg ∧
    (TransportManager.Send ⟨ts, idx⟩ ctx).1 = ⟨ts, idx⟩ ∧
    (TransportManager.Send ⟨ts, idx⟩ ctx).2.2 = attempts ts ts.length := by
  have h := sendLoop_fail hc ts 0 hfail
  simp only [TransportManager.Send, h]
  simp

theorem manager_send_all_failed_witness :
    (∀ k, k < ([⟨"domain-fronting", true, some "request to x timed out after 8 seconds"⟩] :
        List TransportModel).length →
      ¬ okAt [⟨"domain-fronting", true, some "request to x timed out after 8 seconds"⟩] k) ∧
    ((TransportManager.Send
        ⟨[⟨"domain-fronting", true, some "request to x timed out after 8 seconds"⟩], 0⟩
        Ctx.live).2.1 = .failed allTransportsFailedMsg ∧
     (TransportManager.Send
        ⟨[⟨"domain-fronting", true, some "request to x timed out after 8 seconds"⟩], 0⟩
        Ctx.live).1 =
       ⟨[⟨"domain-fronting", true, some "request to x timed out after 8 seconds"⟩], 0⟩ ∧
     (TransportManager.Send
        ⟨[⟨"domain-fronting", true, some "request to x timed out after 8 seconds"⟩], 0⟩
        Ctx.live).2.2 =
       attempts [⟨"domain-fronting", true, some "request to x timed out after 8 seconds"⟩]
         ([⟨"domain-fronting", true, some "request to x timed out after 8 seconds"⟩] :
           List TransportModel).length) :=
  ⟨by decide,
   manager_send_all_failed _ 0 Ctx.live rfl (by decide)⟩

/-- **C5**: if the context is cancelled before iteration `c` begins and no
earlier transport succeeded, `Send` returns the context's error and the
send of transport `c` — and of every later transport — is never invoked. -/
theorem manager_send_cancelled (ts : List TransportModel) (idx : Nat) (ctx : Ctx)
    (c : Nat) (hc : ctx.cancelledAt = some c) (hlen : c < ts.length)
    (hfail : ∀ k, k < c → ¬ okAt ts k) :
    (TransportManager.Send ⟨ts, idx⟩ ctx).2.1 = .cancelled ctx.errMsg ∧
    (TransportManager.Send ⟨ts, idx⟩ ctx).2.2 = attempts ts c ∧
    (∀ k ∈ attempts ts c, k < c) := by
  have h := sendLoop_cancel hc ts 0 (Nat.zero_le c) (by simpa using hlen)
    (by simpa using hfail)
  rw [Nat.sub_zero] at h
  refine ⟨?_, ?_, ?_⟩
  · simp only [TransportManager.Send, h]
  · simp only [TransportManager.Send, h]; simp
  · intro k hk
    unfold attempts at hk
    simp only [List.mem_filter, List.mem_range] at hk
    exact hk.1

/-- If `sub` leads `l`, it still leads `l ++ l'`. -/
lemma charsLead_append {sub l : List Char} (l' : List Char)
    (h : charsLead sub l = true) : charsLead sub (l ++ l') = true := by
  induction sub generalizing l with
  | nil => rfl
  | cons a as ih =>
    cases l with
    | nil => simp [charsLead] at h
    | cons b bs =>
      simp only [charsLead, Bool.and_eq_true, beq_iff_eq] at h
      simp only [List.cons_append, charsLead, Bool.and_eq_true, beq_iff_eq]
      exact ⟨h.1, ih h.2⟩

@[simp] lemma charsHaveSub_nil_sub (l : List Char) : charsHaveSub [] l = true := by
  cases l <;> simp [charsHaveSub, charsLead, List.isEmpty]

/-- A substring of `l` is a substring of `l ++ l'`. -/
lemma charsHaveSub_append_left {sub l : List Char} (l' : List Char)
    (h : charsHaveSub sub l = true) : charsHaveSub sub (l ++ l') = true := by
  induction l with
  | nil =>
    simp only [charsHaveSub] at h
    cases sub with
    | nil => simp
    | cons a as => simp [List.isEmpty] at h
  | cons b bs ih =>
    simp only [charsHaveSub, Bool.or_eq_true] at h
    simp only [List.cons_append, charsHaveSub, Bool.or_eq_true]
    rcases h with h | h
    · exact Or.inl (charsLead_append l' h)
    · exact Or.inr (ih h)

/-- Containment in `s` is preserved by appending on the right. -/
lemma strContains_append_left (s t sub : String)
    (h : strContains s sub = true) : strContains (s ++ t) sub = true := by
  unfold strContains at h ⊢
  rw [show (s ++ t).toList = s.toList ++ t.toList by simp [String.toList]]
  exact charsHaveSub_append_left _ h

/-- **C3**: every error message containing one of the substrings "502",
"Bad Gateway", "blocked", "certificate" is classified blocking by
`isBlockingError`, while the messages "timeout", "connection refused" and
"dial tcp: no route" are classified not blocking (transient). -/
theorem blocking_classification (s : String)
    (h : strContains s "502" = true ∨ strContains s "Bad Gateway" = true ∨
      strContains s "blocked" = true ∨ strContains s "certificate" = true) :
    isBlockingError (some s) = true ∧
    isBlockingError (some "502 Bad Gateway") = true ∧
    isBlockingError (some "blocked by policy") = true ∧
    isBlockingError (some "certificate expired") = true ∧
    isBlockingError (some "... 502 ...") = true ∧
    isBlockingError (some "timeout") = false ∧
    isBlockingError (some "connection refused") = false ∧
    isBlockingError (some "dial tcp: no route") = false := by
  refine ⟨?_, by decide, by decide, by decide, by decide, by decide, by decide, by decide⟩
  unfold isBlockingError
  rcases h with h | h | h | h <;> simp [h]

theorem blocking_classification_witness :
    (strContains "502 Bad Gateway" "502" = true ∨
      strContains "502 Bad Gateway" "Bad Gateway" = true ∨
      strContains "502 Bad Gateway" "blocked" = true ∨
      strContains "502 Bad Gateway" "certificate" = true) ∧
    (isBlockingError (some "502 Bad Gateway") = true ∧
     isBlockingError (some "502 Bad Gateway") = true ∧
     isBlockingError (some "blocked by policy") = true ∧
     isBlockingError (some "certificate expired") = true ∧
     isBlockingError (some "... 502 ...") = true ∧
     isBlockingError (some "timeout") = false ∧
     isBlockingError (some "connection refused") = false ∧
     isBlockingError (some "dial tcp: no route") = false) :=
  ⟨Or.inl (by decide), blocking_classification "502 Bad Gateway" (Or.inl (by decide))⟩

/-- **C4 counterexample**: a fronting send failing with 403 yields an error
that `isBlockingError` classifies as blocking, contradicting the claim
that it is "not a blocking error". -/
theorem fronting403_counterexample :
    isBlockingError (frontingStatusError "ajax.googleapis.com" 403 "") = true := by
  decide

/-- **C4 amended**: a fronting send failing with 403 yields the error
"CDN blocked request to F (403 Forbidden)"; because that message contains
"blocked", the manager classifies it as a *blocking* error, not merely
fatal-at-transport; the manager nevertheless proceeds to the next
transport in the chain and succeeds there. -/
theorem fronting403_blocking (frontDomain body : String) (t2 : TransportModel)
    (h2 : t2.available = true) (hs2 : t2.sendErr = none) :
    frontingStatusError frontDomain 403 body = some (fronting403Msg frontDomain) ∧
    strContains (fronting403Msg frontDomain) "blocked" = true ∧
    isBlockingError (some (fronting403Msg frontDomain)) = true ∧
    (TransportManager.Send
        ⟨[⟨"domain-fronting", true, some (fronting403Msg frontDomain)⟩, t2], 0⟩
        Ctx.live).2.1 = .ok 1 := by
  have hcontains : strContains (fronting403Msg frontDomain) "blocked" = true := by
    unfold fronting403Msg
    apply strContains_append_left
    apply strContains_append_left
    decide
  refine ⟨rfl, hcontains, ?_, ?_⟩
  · unfold isBlockingError
    simp [hcontains]
  · have hok : okAt [⟨"domain-fronting", true, some (fronting403Msg frontDomain)⟩, t2] 1 :=
      ⟨t2, rfl, h2, hs2⟩
    have hfirst : ∀ k, k < 1 →
        ¬ okAt [⟨"domain-fronting", true, some (fronting403Msg frontDomain)⟩, t2] k := by
      intro k hk
      interval_cases k
      intro hbad
      obtain ⟨t, ht, _, hsend⟩ := hbad
      cases ht
      exact Option.noConfusion hsend
    rw [manager_send_eq_of_ok (show Ctx.live.cancelledAt = none from rfl) hok hfirst 0]

theorem fronting403_blocking_witness :
    (TransportModel.available ⟨"mesh", true, none⟩ = true ∧
      TransportModel.sendErr ⟨"mesh", true, none⟩ = none) ∧
    (frontingStatusError "ajax.googleapis.com" 403 "" =
       some (fronting403Msg "ajax.googleapis.com") ∧
     strContains (fronting403Msg "ajax.googleapis.com") "blocked" = true ∧
     isBlockingError (some (fronting403Msg "ajax.googleapis.com")) = true ∧
     (TransportManager.Send
        ⟨[⟨"domain-fronting", true, some (fronting403Msg "ajax.googleapis.com")⟩,
          ⟨"mesh", true, none⟩], 0⟩ Ctx.live).2.1 = .ok 1) :=
  ⟨⟨rfl, rfl⟩, fronting403_blocking "ajax.googleapis.com" "" ⟨"mesh", true, none⟩ rfl rfl⟩

theorem manager_send_cancelled_witness :
    (1 < c5Chain.length ∧ ∀ k, k < 1 → ¬ okAt c5Chain k) ∧
    ((TransportManager.Send ⟨c5Chain, 0⟩ ⟨some 1, "context canceled"⟩).2.1 =
       .cancelled "context canceled" ∧
     (TransportManager.Send ⟨c5Chain, 0⟩ ⟨some 1, "context canceled"⟩).2.2 =
       attempts c5Chain 1 ∧
     (∀ k ∈ attempts c5Chain 1, k < 1)) :=
  ⟨⟨by decide, by decide⟩,
   manager_send_cancelled c5Chain 0 ⟨some 1, "context canceled"⟩ 1 rfl (by decide)
     (by decide)⟩

/-- **C7**: status 200 yields ok; 403, 404 and 502/503/504 yield their
class-specific error messages; every other status yields the generic
server-status message carrying the code and the body; any non-200 status
yields an error. -/
theorem fronting_status_classes (frontDomain body : String) (s : Nat) :
    frontingStatusError frontDomain 200 body = none ∧
    frontingStatusError frontDomain 403 body =
      some ("CDN blocked request to " ++ frontDomain ++ " (403 Forbidden)") ∧
    frontingStatusError frontDomain 404 body =
      some ("endpoint not found on " ++ frontDomain ++ " (404 Not Found)") ∧
    (s = 502 ∨ s = 503 ∨ s = 504 →
      frontingStatusError frontDomain s body =
        some ("CDN gateway error " ++ toString s ++ " for " ++ frontDomain)) ∧
    (s ≠ 200 → s ≠ 403 → s ≠ 404 → s ≠ 502 → s ≠ 503 → s ≠ 504 →
      frontingStatusError frontDomain s body =
        some ("server " ++ frontDomain ++ " returned status " ++ toString s
          ++ ": " ++ body)) ∧
    (s ≠ 200 → (frontingStatusError frontDomain s body).isSome = true) := by
  refine ⟨rfl, rfl, rfl, ?_, ?_, ?_⟩
  · rintro (rfl | rfl | rfl) <;> rfl
  · intro h200 h403 h404 h502 h503 h504
    simp [frontingStatusError, h200, h403, h404, h502, h503, h504]
  · intro h200
    unfold frontingStatusError
    rw [if_neg (by simp [h200])]
    split
    · rfl
    · split
      · rfl
      · split
        · rfl
        · rfl

theorem fronting_status_classes_witness :
    (((503 : Nat) = 502 ∨ (503 : Nat) = 503 ∨ (503 : Nat) = 504) ∧
      (418 : Nat) ≠ 200 ∧ (418 : Nat) ≠ 403 ∧ (418 : Nat) ≠ 404 ∧
      (418 : Nat) ≠ 502 ∧ (418 : Nat) ≠ 503 ∧ (418 : Nat) ≠ 504) ∧
    frontingStatusError "a.example" 503 "" =
      some ("CDN gateway error " ++ toString (503 : Nat) ++ " for " ++ "a.example") ∧
    frontingStatusError "a.example" 418 "oops" =
      some ("server " ++ "a.example" ++ " returned status " ++ toString (418 : Nat)
        ++ ": " ++ "oops") ∧
    (frontingStatusError "a.example" 418 "oops").isSome = true :=
  ⟨⟨Or.inr (Or.inl rfl), by omega, by omega, by omega, by omega, by omega, by omega⟩,
   (fronting_status_classes "a.example" "" 503).2.2.2.1 (Or.inr (Or.inl rfl)),
   (fronting_status_classes "a.example" "oops" 418).2.2.2.2.1 (by omega) (by omega)
     (by omega) (by omega) (by omega) (by omega),
   (fronting_status_classes "a.example" "oops" 418).2.2.2.2.2 (by omega)⟩

lemma dialTLSLoop_conn (outcome : String → DNSOutcome) (addr : String) :
    ∀ (ds : List String) (j : Nat) (d : String), ds.get? j = some d →
      resolverOk outcome d = true →
      (∀ k q, k < j → ds.get? k = some q → resolverOk outcome q = false) →
      dialTLSLoop outcome addr ds = (.conn d, ds.take (j + 1)) := by
  intro ds
  induction ds with
  | nil => intro j d hd _ _; simp at hd
  | cons d0 rest ih =>
    intro j d hd hok hfirst
    cases j with
    | zero =>
      cases hd
      simp only [resolverOk, Bool.and_eq_true] at hok
      simp [dialTLSLoop, hok.1, hok.2, List.take_succ_cons]
    | succ j' =>
      have h0 : resolverOk outcome d0 = false := hfirst 0 d0 (Nat.succ_pos j') rfl
      simp only [resolverOk, Bool.and_eq_true] at h0
      have hrec := ih j' d hd hok
        (fun k q hk hq => hfirst (k + 1) q (by omega) hq)
      rcases Bool.eq_false_or_eq_true (outcome d0).tcpOk with htcp | htcp
      · have htls : (outcome d0).tlsOk = false := by
          rw [htcp] at h0; simpa using h0
        simp [dialTLSLoop, htcp, htls, hrec, List.take_succ_cons]
      · simp [dialTLSLoop, htcp, hrec, List.take_succ_cons]

lemma dialTLSLoop_err (outcome : String → DNSOutcome) (addr : String) :
    ∀ (ds : List String), (∀ d ∈ ds, resolverOk outcome d = false) →
      dialTLSLoop outcome addr ds = (.err ("all DNS servers failed for " ++ addr), ds) := by
  intro ds
  induction ds with
  | nil => intro _; rfl
  | cons d0 rest ih =>
    intro hall
    have h0 := hall d0 (List.mem_cons_self d0 rest)
    simp only [resolverOk] at h0
    have hrec := ih (fun d hd => hall d (List.mem_cons_of_mem d0 hd))
    rcases Bool.eq_false_or_eq_true (outcome d0).tcpOk with htcp | htcp
    · have htls : (outcome d0).tlsOk = false := by
        rw [htcp] at h0; simpa using h0
      simp [dialTLSLoop, htcp, htls, hrec]
    · simp [dialTLSLoop, htcp, hrec]

/-- **C8**: the resolvers are exactly `["", "8.8.8.8:53", "1.1.1.1:53",
"9.9.9.9:53"]` in that order; the first resolver whose TCP connect and TLS
handshake both succeed supplies the connection and later resolvers are not
tried; if all four fail the dial returns the dns-exhausted error. -/
theorem dial_resolver_fallback (outcome : String → DNSOutcome) (addr : String)
    (j : Nat) (d : String) (hd : dnsServers.get? j = some d) :
    dnsServers = ["", "8.8.8.8:53", "1.1.1.1:53", "9.9.9.9:53"] ∧
    (resolverOk outcome d = true →
      (∀ k q, k < j → dnsServers.get? k = some q → resolverOk outcome q = false) →
      DialTLSContext outcome addr = (.conn d, dnsServers.take (j + 1))) ∧
    ((∀ q ∈ dnsServers, resolverOk outcome q = false) →
      DialTLSContext outcome addr =
        (.err ("all DNS servers failed for " ++ addr), dnsServers)) := by
  refine ⟨rfl, ?_, ?_⟩
  · intro hok hfirst
    exact dialTLSLoop_conn outcome addr dnsServers j d hd hok hfirst
  · intro hall
    exact dialTLSLoop_err outcome addr dnsServers hall

theorem dial_resolver_fallback_witness :
    (dnsServers.get? 1 = some "8.8.8.8:53" ∧
      resolverOk (fun d => if d = "8.8.8.8:53" then ⟨true, true⟩ else ⟨false, false⟩)
        "8.8.8.8:53" = true) ∧
    (dnsServers = ["", "8.8.8.8:53", "1.1.1.1:53", "9.9.9.9:53"] ∧
     DialTLSContext (fun d => if d = "8.8.8.8:53" then ⟨true, true⟩ else ⟨false, false⟩)
       "ajax.googleapis.com:443" = (.conn "8.8.8.8:53", dnsServers.take (1 + 1))) :=
  have hthm := dial_resolver_fallback
    (fun d => if d = "8.8.8.8:53" then ⟨true, true⟩ else ⟨false, false⟩)
    "ajax.googleapis.com:443" 1 "8.8.8.8:53" (by decide)
  ⟨⟨by decide, by decide⟩,
   hthm.1,
   hthm.2.1 (by decide) (fun k q hk hq => by
     have hk0 : k = 0 := by omega
     subst hk0
     simp only [dnsServers, List.get?] at hq
     cases hq
     decide)⟩

lemma lastFail_getLast : ∀ (peers : List PeerAttempt) (acc : Option String)
    (q : PeerAttempt) (e : String), peers.getLast? = some q → q.failMsg = some e →
    lastFail peers acc = some e := by
  intro peers
  induction peers with
  | nil => intro acc q e hq _; simp at hq
  | cons p rest ih =>
    intro acc q e hq he
    cases rest with
    | nil =>
      simp only [List.getLast?_singleton, Option.some.injEq] at hq
      subst hq
      simp [lastFail, he]
    | cons r rs =>
      have hq' : (r :: rs).getLast? = some q := by
        simpa [List.getLast?_cons_cons] using hq
      simp only [lastFail]
      exact ih _ q e hq' he

lemma meshLoop_ok {ctx : Ctx} (hc : ctx.cancelledAt = none) :
    ∀ (peers : List PeerAttempt) (i : Nat) (acc : Option String) (j : Nat),
      peerOkAt peers j → (∀ k, k < j → ¬ peerOkAt peers k) →
      meshLoop peers i acc ctx = (.ok, (List.range (j + 1)).map (fun k => i + k)) := by
  intro peers
  induction peers with
  | nil => intro i acc j hok _; obtain ⟨p, hp, -⟩ := hok; simp at hp
  | cons p rest ih =>
    intro i acc j hok hfirst
    have hdone : ctx.done i = false := by simp [Ctx.done, hc]
    cases j with
    | zero =>
      obtain ⟨q, hq, hd, hw⟩ := hok
      cases hq
      simp [meshLoop, hdone, hd, hw, List.range_succ]
    | succ j' =>
      have h0 : ¬ peerOkAt (p :: rest) 0 := hfirst 0 (Nat.succ_pos j')
      have hok' : peerOkAt rest j' := by
        obtain ⟨q, hq, hd, hw⟩ := hok
        exact ⟨q, hq, hd, hw⟩
      have hfirst' : ∀ k, k < j' → ¬ peerOkAt rest k := by
        intro k hk ⟨q, hq, hd, hw⟩
        exact hfirst (k + 1) (by omega) ⟨q, hq, hd, hw⟩
      have hshift : (List.range (j' + 1 + 1)).map (fun k => i + k) =
          i :: (List.range (j' + 1)).map (fun k => i + 1 + k) := by
        rw [List.range_succ_eq_map]
        simp only [List.map_cons, Nat.add_zero, List.map_map]
        refine congrArg _ ?_
        refine List.map_congr_left fun a _ => ?_
        simp [Function.comp]
        omega
      cases hd : p.dialErr with
      | some e =>
        have hrec := ih (i + 1) (some e) j' hok' hfirst'
        simp [meshLoop, hdone, hd, hrec, hshift]
      | none =>
        cases hw : p.writeErr with
        | none => exact absurd ⟨p, rfl, hd, hw⟩ h0
        | some e =>
          have hrec := ih (i + 1) (some e) j' hok' hfirst'
          simp [meshLoop, hdone, hd, hw, hrec, hshift]

lemma meshLoop_fail {ctx : Ctx} (hc : ctx.cancelledAt = none) :
    ∀ (peers : List PeerAttempt) (i : Nat) (acc : Option String),
      (∀ k, k < peers.length → ¬ peerOkAt peers k) →
      meshLoop peers i acc ctx =
        (.err ("failed to send to any peer: " ++ errShow (lastFail peers acc)),
         (List.range peers.length).map (fun k => i + k)) := by
  intro peers
  induction peers with
  | nil => intro i acc _; simp [meshLoop, lastFail]
  | cons p rest ih =>
    intro i acc hfail
    have hdone : ctx.done i = false := by simp [Ctx.done, hc]
    have h0 : ¬ peerOkAt (p :: rest) 0 := hfail 0 (by simp)
    have hfail' : ∀ k, k < rest.length → ¬ peerOkAt rest k := by
      intro k hk ⟨q, hq, hd, hw⟩
      exact hfail (k + 1) (by simp [List.length_cons]; omega) ⟨q, hq, hd, hw⟩
    have hshift : (List.range (rest.length + 1)).map (fun k => i + k) =
        i :: (List.range rest.length).map (fun k => i + 1 + k) := by
      rw [List.range_succ_eq_map]
      simp only [List.map_cons, Nat.add_zero, List.map_map]
      refine congrArg _ ?_
      refine List.map_congr_left fun a _ => ?_
      simp [Function.comp]
      omega
    cases hd : p.dialErr with
    | some e =>
      have hrec := ih (i + 1) (some e) hfail'
      simp only [meshLoop, hdone, Bool.false_eq_true, if_false, hd, hrec,
        List.length_cons, hshift, lastFail, PeerAttempt.failMsg]
    | none =>
      cases hw : p.writeErr with
      | none => exact absurd ⟨p, rfl, hd, hw⟩ h0
      | some e =>
        have hrec := ih (i + 1) (some e) hfail'
        simp only [meshLoop, hdone, Bool.false_eq_true, if_false, hd, hw, hrec,
          List.length_cons, hshift, lastFail, PeerAttempt.failMsg]

lemma meshLoop_cancel {ctx : Ctx} {c : Nat} (hc : ctx.cancelledAt = some c) :
    ∀ (peers : List PeerAttempt) (i : Nat) (acc : Option String), i ≤ c →
      c - i < peers.length → (∀ k, k < c - i → ¬ peerOkAt peers k) →
      meshLoop peers i acc ctx =
        (.cancelled ctx.errMsg, (List.range (c - i)).map (fun k => i + k)) := by
  intro peers
  induction peers with
  | nil => intro i acc _ hlen _; simp at hlen
  | cons p rest ih =>
    intro i acc hle hlen hfail
    by_cases hi : c ≤ i
    · have hci : c - i = 0 := by omega
      have hdone : ctx.done i = true := by simp [Ctx.done, hc, hi]
      simp [meshLoop, hdone, hci]
    · push_neg at hi
      have hdone : ctx.done i = false := by simp [Ctx.done, hc]; omega
      have hm : c - i = (c - (i + 1)) + 1 := by omega
      have h0 : ¬ peerOkAt (p :: rest) 0 := hfail 0 (by omega)
      have hlen' : c - (i + 1) < rest.length := by
        simp [List.length_cons] at hlen; omega
      have hfail' : ∀ k, k < c - (i + 1) → ¬ peerOkAt rest k := by
        intro k hk ⟨q, hq, hd, hw⟩
        exact hfail (k + 1) (by omega) ⟨q, hq, hd, hw⟩
      have hshift : (List.range (c - i)).map (fun k => i + k) =
          i :: (List.range (c - (i + 1))).map (fun k => i + 1 + k) := by
        rw [hm, List.range_succ_eq_map]
        simp only [List.map_cons, Nat.add_zero, List.map_map]
        refine congrArg _ ?_
        refine List.map_congr_left fun a _ => ?_
        simp [Function.comp]
        omega
      cases hd : p.dialErr with
      | some e =>
        have hrec := ih (i + 1) (some e) (by omega) hlen' hfail'
        simp [meshLoop, hdone, hd, hrec, hshift]
      | none =>
        cases hw : p.writeErr with
        | none => exact absurd ⟨p, rfl, hd, hw⟩ h0
        | some e =>
          have hrec := ih (i + 1) (some e) (by omega) hlen' hfail'
          simp [meshLoop, hdone, hd, hw, hrec, hshift]

/-- **C6**: mesh `Send` with no peers returns the no-peers error; otherwise
it dials the peers in sequence order, returns ok at the first peer whose
dial and write both succeed (dialing exactly peers `0..j`), polls the
context between peer attempts (a cancellation at iteration `c` stops the
loop having dialed only peers before `c`), and when every peer fails it
returns the aggregated error carrying the last peer's underlying reason. -/
theorem mesh_send_spec (peers : List PeerAttempt) (ctx : Ctx) :
    (peers = [] → meshSend peers ctx = (.err "no peers available in mesh network", [])) ∧
    (ctx.cancelledAt = none → ∀ j, peerOkAt peers j → (∀ k, k < j → ¬ peerOkAt peers k) →
      meshSend peers ctx = (.ok, List.range (j + 1))) ∧
    (ctx.cancelledAt = none → peers ≠ [] →
      (∀ k, k < peers.length → ¬ peerOkAt peers k) →
      ∀ q e, peers.getLast? = some q → q.failMsg = some e →
        meshSend peers ctx =
          (.err ("failed to send to any peer: " ++ e), List.range peers.length)) ∧
    (∀ c, ctx.cancelledAt = some c → c < peers.length → (∀ k, k < c → ¬ peerOkAt peers k) →
      meshSend peers ctx = (.cancelled ctx.errMsg, List.range c)) := by
  refine ⟨?_, ?_, ?_, ?_⟩
  · rintro rfl; rfl
  · intro hc j hok hfirst
    have hne : peers.length ≠ 0 := by
      obtain ⟨p, hp, -⟩ := hok
      intro h
      rw [List.length_eq_zero] at h
      subst h
      simp at hp
    have h := meshLoop_ok hc peers 0 none j hok hfirst
    simp [meshSend, hne, h]
  · intro hc hne hfail q e hq he
    have hlen : peers.length ≠ 0 := fun h => hne (List.length_eq_zero.mp h)
    have h := meshLoop_fail hc peers 0 none hfail
    rw [lastFail_getLast peers none q e hq he] at h
    simp [meshSend, hlen, h, errShow]
  · intro c hc hlen hfail
    have hne : peers.length ≠ 0 := by omega
    have h := meshLoop_cancel hc peers 0 none (Nat.zero_le c)
      (by simpa using hlen) (by simpa using hfail)
    rw [Nat.sub_zero] at h
    simp [meshSend, hne, h]

theorem mesh_send_spec_witness :
    (Ctx.live.cancelledAt = none ∧ peerOkAt c6Peers 1 ∧
      ∀ k, k < 1 → ¬ peerOkAt c6Peers k) ∧
    meshSend c6Peers Ctx.live = (.ok, List.range (1 + 1)) :=
  ⟨⟨rfl, by decide, by decide⟩,
   (mesh_send_spec c6Peers Ctx.live).2.1 rfl 1 (by decide) (by decide)⟩

lemma lookupName_mapInsert_self (m : List (String × String)) (k v : String) :
    lookupName k (mapInsert m k v) = some v := by
  induction m with
  | nil => simp [mapInsert, lookupName]
  | cons kv rest ih =>
    obtain ⟨k', v'⟩ := kv
    by_cases hk : k' = k
    · subst hk
      simp [mapInsert, lookupName]
    · simp [mapInsert, lookupName, hk, ih]

lemma lookupName_mapInsert_ne (m : List (String × String)) (k v n : String)
    (hne : k ≠ n) : lookupName n (mapInsert m k v) = lookupName n m := by
  induction m with
  | nil => simp [mapInsert, lookupName, hne]
  | cons kv rest ih =>
    obtain ⟨k', v'⟩ := kv
    by_cases hk : k' = k
    · subst hk
      simp [mapInsert, lookupName, hne, ih]
    · simp [mapInsert, lookupName, hk, ih]

lemma lookupName_isSome_mapInsert (m : List (String × String)) (k v n : String)
    (h : (lookupName n m).isSome = true) :
    (lookupName n (mapInsert m k v)).isSome = true := by
  by_cases hk : k = n
  · subst hk
    rw [lookupName_mapInsert_self]
    rfl
  · rw [lookupName_mapInsert_ne m k v n hk]
    exact h

lemma lookupName_mem_GetPeers (m : List (String × String)) (n a : String)
    (h : lookupName n m = some a) : a ∈ GetPeers m := by
  induction m with
  | nil => simp [lookupName] at h
  | cons kv rest ih =>
    obtain ⟨k, v⟩ := kv
    by_cases hk : k = n
    · subst hk
      simp [lookupName] at h
      subst h
      simp [GetPeers]
    · simp only [lookupName, hk, if_false] at h
      simp only [GetPeers, List.map_cons, List.mem_cons]
      exact Or.inr (ih h)

lemma lookupName_isSome_step (m : List (String × String)) (e : ServiceEntry)
    (n : String) (h : (lookupName n m).isSome = true) :
    (lookupName n (discoveryStep m e)).isSome = true := by
  unfold discoveryStep
  cases e.addrV4 with
  | none => exact h
  | some ip => exact lookupName_isSome_mapInsert m e.name _ n h

lemma lookupName_step_untouched (m : List (String × String)) (e : ServiceEntry)
    (n : String) (hun : e.name = n → e.addrV4 = none) :
    lookupName n (discoveryStep m e) = lookupName n m := by
  unfold discoveryStep
  cases he : e.addrV4 with
  | none => rfl
  | some ip =>
    have hne : e.name ≠ n := fun h => by simp [hun h] at he
    exact lookupName_mapInsert_ne m e.name _ n hne

lemma lookupName_isSome_foldl (l : List ServiceEntry) :
    ∀ (m : List (String × String)) (n : String), (lookupName n m).isSome = true →
      (lookupName n (l.foldl discoveryStep m)).isSome = true := by
  induction l with
  | nil => intro m n h; exact h
  | cons e rest ih =>
    intro m n h
    exact ih (discoveryStep m e) n (lookupName_isSome_step m e n h)

lemma lookupName_foldl_untouched (l : List ServiceEntry) :
    ∀ (m : List (String × String)) (n : String),
      (∀ e ∈ l, e.name = n → e.addrV4 = none) →
      lookupName n (l.foldl discoveryStep m) = lookupName n m := by
  induction l with
  | nil => intro m n _; rfl
  | cons e rest ih =>
    intro m n hun
    rw [List.foldl_cons,
      ih (discoveryStep m e) n (fun e' he' => hun e' (List.mem_cons_of_mem e he')),
      lookupName_step_untouched m e n (hun e (List.mem_cons_self e rest))]

/-- **C9 counterexample**: a second mDNS answer re-binding the same
mDNS instance name to a new address makes the old address disappear from
`GetPeers`, so the set of addresses returned is not monotone. -/
theorem discovery_monotone_counterexample :
    "10.0.0.5:7100" ∈
      GetPeers (runDiscovery [⟨"nodeA", some "10.0.0.5", 7100⟩]) ∧
    "10.0.0.5:7100" ∉
      GetPeers (runDiscovery
        [⟨"nodeA", some "10.0.0.5", 7100⟩, ⟨"nodeA", some "10.0.0.6", 7100⟩]) := by
  constructor
  · decide
  · decide

/-- **C9 amended**: the cache is monotone in instance *names*: once a name
is bound it stays bound until stop (entries are inserted, never evicted);
and a cached address keeps appearing in every later `GetPeers()` output as
long as no later entry re-binds the same name. -/
theorem discovery_names_monotone (evs1 evs2 : List ServiceEntry) (n a : String)
    (hl : lookupName n (runDiscovery evs1) = some a) :
    (lookupName n (runDiscovery (evs1 ++ evs2))).isSome = true ∧
    ((∀ e ∈ evs2, e.name = n → e.addrV4 = none) →
      lookupName n (runDiscovery (evs1 ++ evs2)) = some a ∧
      a ∈ GetPeers (runDiscovery (evs1 ++ evs2))) := by
  have happ : runDiscovery (evs1 ++ evs2) = evs2.foldl discoveryStep (runDiscovery evs1) := by
    unfold runDiscovery
    exact List.foldl_append _ _ _ _
  constructor
  · rw [happ]
    exact lookupName_isSome_foldl evs2 (runDiscovery evs1) n (by simp [hl])
  · intro hun
    have heq : lookupName n (runDiscovery (evs1 ++ evs2)) = some a := by
      rw [happ, lookupName_foldl_untouched evs2 (runDiscovery evs1) n hun, hl]
    exact ⟨heq, lookupName_mem_GetPeers _ n a heq⟩

theorem discovery_names_monotone_witness :
    (lookupName "nodeA" (runDiscovery [⟨"nodeA", some "10.0.0.5", 7100⟩]) =
       some "10.0.0.5:7100" ∧
     (∀ e ∈ ([⟨"nodeB", some "10.0.0.9", 7100⟩] : List ServiceEntry),
       e.name = "nodeA" → e.addrV4 = none)) ∧
    ((lookupName "nodeA"
        (runDiscovery ([⟨"nodeA", some "10.0.0.5", 7100⟩] ++
          [⟨"nodeB", some "10.0.0.9", 7100⟩]))).isSome = true ∧
     lookupName "nodeA"
        (runDiscovery ([⟨"nodeA", some "10.0.0.5", 7100⟩] ++
          [⟨"nodeB", some "10.0.0.9", 7100⟩])) = some "10.0.0.5:7100" ∧
     "10.0.0.5:7100" ∈ GetPeers
        (runDiscovery ([⟨"nodeA", some "10.0.0.5", 7100⟩] ++
          [⟨"nodeB", some "10.0.0.9", 7100⟩]))) :=
  have h := discovery_names_monotone [⟨"nodeA", some "10.0.0.5", 7100⟩]
    [⟨"nodeB", some "10.0.0.9", 7100⟩] "nodeA" "10.0.0.5:7100" (by decide)
  ⟨⟨by decide, by decide⟩,
   h.1, (h.2 (by decide)).1, (h.2 (by decide)).2⟩

/-- **C10**: every fronting transport is named "domain-fronting" regardless
of its front-domain, the mesh transport is named "mesh", and the status map
of the chain built by `New` has exactly the two keys "domain-fronting" and
"mesh" — the four fronting transports collapse into one entry. -/
theorem get_status_two_keys :
    (∀ f h : String, (FrontingTransport.New f h).Name = "domain-fronting") ∧
    (∀ f h : String, (ChainTransport.fronting (FrontingTransport.New f h)).Name =
      "domain-fronting") ∧
    (∀ ps : List String, (ChainTransport.mesh ps).Name = "mesh") ∧
    (GetStatus managerNew).map Prod.fst = ["domain-fronting", "mesh"] ∧
    GetStatus managerNew =
      [("domain-fronting", "available"), ("mesh", "available")] := by
  refine ⟨fun f h => rfl, fun f h => rfl, fun ps => rfl, ?_, ?_⟩
  · rfl
  · rfl

end Hydra
